import Mathlib

/-!
Shallow embedding of the city-suggestion service (NestJS/TypeScript sources
under `src/`): the weighted character trie (`trie/trie.service.ts`), the
fuzzy-matcher wrapper (`fuzzy.service.ts`), the scoring model and the
suggestion orchestrator (`suggestions.service.ts`).

Modelling conventions:
* JavaScript strings are `List Char`; `toLowerCase` is `Char.toLower`
  character-wise, `trim`/`split(',')` are explicit list operations.
* JavaScript numbers are `ℚ`.  The two real-analytic primitives that a
  rational model cannot compute — the haversine great-circle distance
  (`Math.sin`/`Math.cos`/`Math.atan2`/`Math.sqrt` inside
  `calculateProximityScore`) and `Math.log10` — are parameters of the
  environment; everything built on top of them (the `max(0, 1 - d/1000)`
  normalisation, the `MAX_DISTANCE_KM` filter, `Math.ceil`, the score
  combination) is embedded explicitly.
* A JavaScript `Map` is an insertion-ordered association list with unique
  keys: `get` finds the entry, `set` overwrites in place or appends.
* `Array.prototype.sort` (guaranteed stable by ECMAScript) with comparator
  `(a, b) => b.score - a.score` is modelled by the stable
  `List.insertionSort` with the relation "score is at least".
* The `Set<SuggestionEntity>` accumulator of `getSuggestions` compares by
  object reference; every call of `createSuggestion` returns a fresh
  object, so `add` never deduplicates and the set is exactly the list of
  added suggestions in insertion order.
-/

/-- Whitespace test backing `String.prototype.trim`. -/
def isSpace (c : Char) : Bool :=
  c = ' ' || c = '\t' || c = '\n' || c = '\r'

/-- `String.prototype.trim`: drop leading and trailing whitespace. -/
def jsTrim (s : List Char) : List Char :=
  ((s.dropWhile isSpace).reverse.dropWhile isSpace).reverse

/-- `String.prototype.toLowerCase`, character-wise. -/
def jsLower (s : List Char) : List Char :=
  s.map Char.toLower

/-- `String.prototype.split(',')`. -/
def jsSplit (s : List Char) : List (List Char) :=
  s.splitOn ','

/-- The fields of `CityEntity` (`entities/city.entity.ts`) that the
suggestion pipeline reads.  The remaining GeoNames fields (`featClass`,
`featCode`, `altCountry`, the `admin*` codes, `elevation`, `dem`,
`modifiedAt`) are never consulted by the trie, the fuzzy matcher or the
orchestrator and are omitted.  An absent (`undefined`) or empty string is
`[]`, matching JavaScript truthiness tests on these fields; `population`
is a natural number (`parseInt(..., 10) || 0`). -/
structure City where
  id : Nat
  name : List Char
  ascii : List Char
  altName : List Char
  latitude : ℚ
  longitude : ℚ
  country : List Char
  population : Nat
  timezone : List Char
  deriving DecidableEq

/-- `SuggestionEntity` (`entities/suggestion.entity.ts`). -/
structure Suggestion where
  name : List Char
  latitude : ℚ
  longitude : ℚ
  score : ℚ
  deriving DecidableEq

/-! Constants from `common/constants.ts`. -/

def NAME_WEIGHT : ℚ := 1
def ASCII_WEIGHT : ℚ := 9/10
def ALT_NAME_WEIGHT : ℚ := 7/10
def PROXIMITY_WEIGHT : ℚ := 2/5
def POPULATION_WEIGHT : ℚ := 3/20
def MAX_SUGGESTIONS : Nat := 10
def MAX_DISTANCE_KM : ℚ := 1000

/-! ## The trie (`trie/trie.node.ts`, `trie/trie.service.ts`)

`TrieNode` holds a `Map<string, TrieNode>` of children keyed by single
characters, an `isEndOfWord` marker, and — set together with it by
`insertWord` — a `weight` and a `city` reference (initial values `0` and
`null`).  `Children` is the insertion-ordered association list realising
the `Map`. -/

mutual
inductive TrieNode : Type where
  | mk (children : Children) (isEndOfWord : Bool) (weight : ℚ) (city : Option City)
  deriving DecidableEq
inductive Children : Type where
  | nil
  | cons (key : Char) (node : TrieNode) (rest : Children)
  deriving DecidableEq
end

def TrieNode.children : TrieNode → Children
  | .mk ch _ _ _ => ch

def TrieNode.isEndOfWord : TrieNode → Bool
  | .mk _ e _ _ => e

def TrieNode.weight : TrieNode → ℚ
  | .mk _ _ w _ => w

def TrieNode.city : TrieNode → Option City
  | .mk _ _ _ c => c

/-- `new TrieNode()`. -/
def TrieNode.empty : TrieNode := .mk .nil false 0 none

/-- `children.get(char)` (`Map.prototype.get`). -/
def Children.get : Children → Char → Option TrieNode
  | .nil, _ => none
  | .cons k t rest, c => if k = c then some t else rest.get c

/-- `children.set(char, node)` (`Map.prototype.set`): overwrite the entry
in place if the key exists, else append. -/
def Children.set : Children → Char → TrieNode → Children
  | .nil, c, n => .cons c n .nil
  | .cons k t rest, c, n => if k = c then .cons k n rest else .cons k t (rest.set c n)

/-- Keys of the child map, in insertion order. -/
def Children.keys : Children → List Char
  | .nil => []
  | .cons k _ rest => k :: rest.keys

/-- `TrieService.insertWord(word, city, weight)`: walk `word` from the
given node creating missing children, then mark the final node
`isEndOfWord` and store `(city, weight)` there (overwriting any previous
terminal data). -/
def insertWord : TrieNode → List Char → City → ℚ → TrieNode
  | .mk ch e w0 c0, [], city, w => .mk ch true w (some city)
  | .mk ch e w0 c0, c :: rest, city, w =>
    let child := match ch.get c with
      | some n => n
      | none => TrieNode.empty
    .mk (ch.set c (insertWord child rest city w)) e w0 c0

/-- The words a city is indexed under, with their field weights, in the
insertion order of `TrieService.insert`: the lower-cased primary name with
`NAME_WEIGHT`; the lower-cased ASCII name with `ASCII_WEIGHT` if truthy;
each comma-separated alternate name, trimmed and lower-cased, with
`ALT_NAME_WEIGHT` if `altName` is truthy. -/
def cityWords (city : City) : List (List Char × ℚ) :=
  (jsLower city.name, NAME_WEIGHT) ::
    ((if city.ascii ≠ [] then [(jsLower city.ascii, ASCII_WEIGHT)] else []) ++
      (if city.altName ≠ [] then
        (jsSplit city.altName).map (fun n => (jsLower (jsTrim n), ALT_NAME_WEIGHT))
      else []))

/-- `TrieService.insert(city)`: the three `insertWord` passes of the
source, expressed as a fold over `cityWords`. -/
def trieInsert (t : TrieNode) (city : City) : TrieNode :=
  (cityWords city).foldl (fun t' p => insertWord t' p.1 city p.2) t

/-- The trie built by `initializeCities`: every catalog city inserted in
order, starting from the fresh root. -/
def trieOf (cities : List City) : TrieNode :=
  cities.foldl trieInsert TrieNode.empty

/-- The walk of `TrieService.search`: consume the (already lower-cased)
characters from the node, `none` when some character has no child. -/
def searchNode : TrieNode → List Char → Option TrieNode
  | t, [] => some t
  | t, c :: rest =>
    match t.children.get c with
    | none => none
    | some child => searchNode child rest

/-- The entry `{city: node.city, weight: node.weight}` that
`TrieService.collectWords` pushes at a terminal node.  (`insertWord` is
the only writer of `isEndOfWord` and always stores a city with it, so the
`none` branch at a terminal node is unreachable in built tries.) -/
def termEntry (e : Bool) (w : ℚ) (city : Option City) : List (City × ℚ) :=
  match e, city with
  | true, some c => [(c, w)]
  | _, _ => []

mutual
/-- `TrieService.collectWords`: push `(city, weight)` at a terminal node,
then recurse into every child in map order. -/
def collectWords : TrieNode → List (City × ℚ)
  | .mk ch e w city => termEntry e w city ++ collectChildren ch
def collectChildren : Children → List (City × ℚ)
  | .nil => []
  | .cons _ t rest => collectWords t ++ collectChildren rest
end

mutual
/-- Number of terminal (`isEndOfWord`) nodes in a subtree. -/
def countTerminals : TrieNode → Nat
  | .mk ch e _ _ => (if e then 1 else 0) + countTerminalsChildren ch
def countTerminalsChildren : Children → Nat
  | .nil => 0
  | .cons _ t rest => countTerminals t + countTerminalsChildren rest
end

/-- `TrieService.search(prefix)`: lower-case the prefix, walk from the
root, return `[]` on a failed walk, else collect the whole subtree. -/
def trieSearch (t : TrieNode) (p : List Char) : List (City × ℚ) :=
  match searchNode t (jsLower p) with
  | none => []
  | some n => collectWords n

/-! ## The fuzzy matcher (`fuzzy/fuzzy.service.ts`)

`FuzzyService` keeps an external `FuzzySet` similarity index (library
code, modelled as the abstract query function `fuzzyGet` of the
environment returning `[similarity, name]` pairs, `[]` for a null result)
and a `Map<string, CityEntity>` from every indexed name back to its city.
-/

/-- `Map.prototype.get` on the reverse string-to-city map. -/
def mapGet : List (List Char × City) → List Char → Option City
  | [], _ => none
  | (k, v) :: rest, s => if k = s then some v else mapGet rest s

/-- `Map.prototype.set` on the reverse map: overwrite in place or append. -/
def mapSet : List (List Char × City) → List Char → City → List (List Char × City)
  | [], s, v => [(s, v)]
  | (k, w) :: rest, s, v => if k = s then (k, v) :: rest else (k, w) :: mapSet rest s v

/-- The names `FuzzyService.addCity` indexes, in order: the primary name,
the ASCII name if truthy, every trimmed alternate name if truthy.  (The
same strings are fed to `fuzzySet.add` and, as keys, to `cityMap.set`.) -/
def fuzzyNames (city : City) : List (List Char) :=
  city.name ::
    ((if city.ascii ≠ [] then [city.ascii] else []) ++
      (if city.altName ≠ [] then (jsSplit city.altName).map jsTrim else []))

/-- The `cityMap` after `addCity` ran over the whole catalog in order:
each indexed name maps to its city, a later `set` of the same string
overwriting an earlier one. -/
def cityMapOf (cities : List City) : List (List Char × City) :=
  cities.foldl (fun m c => (fuzzyNames c).foldl (fun m' s => mapSet m' s c) m) []

/-- The environment a request runs against: the loaded catalog plus the
three opaque numeric primitives (see the header). `dist` abstracts the
haversine computation of `calculateProximityScore` applied to
`(cityLat, cityLon, userLat, userLon)`; `log10` abstracts `Math.log10`;
`fuzzyGet` abstracts `fuzzySet.get(query) || []`. -/
structure Env where
  cities : List City
  dist : ℚ → ℚ → ℚ → ℚ → ℚ
  log10 : ℚ → ℚ
  fuzzyGet : List Char → List (ℚ × List Char)

/-- `FuzzyService.findMatches(query)`: resolve each `[similarity, name]`
hit through `cityMap`, dropping strings with no backing city. -/
def findMatches (env : Env) (query : List Char) : List (City × ℚ) :=
  (env.fuzzyGet query).filterMap fun p =>
    match mapGet (cityMapOf env.cities) p.2 with
    | some c => some (c, p.1)
    | none => none

/-! ## The scoring model (`suggestions.service.ts`) -/

/-- `SuggestionsService.calculateProximityScore`: the haversine distance
(the abstracted `dist`) and its normalisation
`max(0, 1 - distance / MAX_DISTANCE_KM)`. -/
def calculateProximityScore (env : Env) (cityLatitude cityLongitude userLatitude userLongitude : ℚ) :
    ℚ × ℚ :=
  let distance := env.dist cityLatitude cityLongitude userLatitude userLongitude
  (distance, max 0 (1 - distance / MAX_DISTANCE_KM))

/-- Modelled from the spec: `CityRepository.getMaxPopulation` is called by
`calculatePopulationScore` but its definition is absent from the provided
sources (only the test mock `Math.max(...cities.map(c => c.population))`
appears); the spec defines it as the maximum population in the loaded
catalog. -/
def getMaxPopulation (cities : List City) : Nat :=
  (cities.map City.population).foldl max 0

/-- The divisor `Math.ceil(Math.log10(getMaxPopulation()))` of
`calculatePopulationScore`.  `Math.ceil` is `Rat.ceil`. -/
def popDivisor (env : Env) : ℚ :=
  ((Rat.ceil (env.log10 (getMaxPopulation env.cities)) : ℤ) : ℚ)

/-- `SuggestionsService.calculatePopulationScore`:
`log10(population) / ceil(log10(maxPopulation))`, and `0` for a falsy
(zero) population.

Infidelity of the rational model at the zero divisor: when
`popDivisor env = 0` (in JavaScript: a catalog whose maximum population
is exactly 1, giving `Math.ceil(Math.log10(1)) = 0`) and the population
is truthy, the source divides `0 / 0` and produces the IEEE float NaN,
which `ℚ` cannot represent — rational division renders it as `0`
instead.  `populationScoreIsNaN` marks exactly those inputs; theorems
about this score carry it as a side condition and none of their proofs
appeals to the `x / 0 = 0` convention. -/
def calculatePopulationScore (env : Env) (city : City) : ℚ :=
  if city.population ≠ 0 then env.log10 city.population / popDivisor env else 0

/-- The inputs on which the JavaScript source computes the population
score as `0 / 0`, i.e. the IEEE float NaN: the population is truthy (so
the division is reached), the numerator `Math.log10(population)` is `0`
and the divisor is `0`.  On these inputs `calculatePopulationScore`
is not faithful (see its docstring). -/
def populationScoreIsNaN (env : Env) (city : City) : Prop :=
  city.population ≠ 0 ∧ env.log10 city.population = 0 ∧ popDivisor env = 0

/-- `SuggestionsService.combineScores`. -/
def combineScores (textMatchScore additionalScore weight : ℚ) : ℚ :=
  textMatchScore * (1 - weight) + additionalScore * weight

/-- `SuggestionsService.formatCityName`:
`` `${name}${country ? `, ${country}` : ''}${timezone ? `, ${timezone}` : ''}` ``. -/
def formatCityName (city : City) : List Char :=
  city.name ++
    (if city.country ≠ [] then [',', ' '] ++ city.country else []) ++
    (if city.timezone ≠ [] then [',', ' '] ++ city.timezone else [])

/-- `SuggestionsService.createSuggestion(city, textMatchScore, userLat?,
userLon?)`: proximity secondary with `PROXIMITY_WEIGHT` when both user
coordinates are defined, population secondary with `POPULATION_WEIGHT`
otherwise. -/
def createSuggestion (env : Env) (city : City) (textMatchScore : ℚ)
    (userLat userLon : Option ℚ) : Suggestion :=
  let p : ℚ × ℚ :=
    match userLat, userLon with
    | some la, some lo =>
      ((calculateProximityScore env city.latitude city.longitude la lo).2, PROXIMITY_WEIGHT)
    | _, _ => (calculatePopulationScore env city, POPULATION_WEIGHT)
  { name := formatCityName city
    latitude := city.latitude
    longitude := city.longitude
    score := combineScores textMatchScore p.1 p.2 }

/-! ## The orchestrator (`suggestions.service.ts`) -/

/-- `SuggestionsService.handleQueryWithLocation`: prefix hits if any,
otherwise fuzzy matches, each turned into a proximity-scored suggestion. -/
def handleQueryWithLocation (env : Env) (query : List Char) (latitude longitude : ℚ) :
    List Suggestion :=
  let trieMatches := trieSearch (trieOf env.cities) query
  if trieMatches.length > 0 then
    trieMatches.map fun m => createSuggestion env m.1 m.2 (some latitude) (some longitude)
  else
    (findMatches env query).map fun m =>
      createSuggestion env m.1 m.2 (some latitude) (some longitude)

/-- `SuggestionsService.handleQueryOnly`: population-scored prefix hits;
when the suggestion set holds fewer than `MAX_SUGGESTIONS` entries, also
the fuzzy matches whose city id was not already processed. -/
def handleQueryOnly (env : Env) (query : List Char) : List Suggestion :=
  let trieMatches := trieSearch (trieOf env.cities) query
  let sugs := trieMatches.map fun m => createSuggestion env m.1 m.2 none none
  let processedCities := trieMatches.map fun m => m.1.id
  if sugs.length < MAX_SUGGESTIONS then
    sugs ++
      ((findMatches env query).filter fun m => ¬ m.1.id ∈ processedCities).map
        (fun m => createSuggestion env m.1 m.2 none none)
  else
    sugs

/-- `SuggestionsService.getNearbyCities`: score every catalog city
against the user coordinate, keep `distance <= MAX_DISTANCE_KM`, sort
descending by score, slice to `MAX_SUGGESTIONS`. -/
def getNearbyCities (env : Env) (latitude longitude : ℚ) : List (City × ℚ × ℚ) :=
  ((env.cities.map fun city =>
      let p := calculateProximityScore env city.latitude city.longitude latitude longitude
      (city, p.2, p.1)).filter
    (fun x => x.2.2 ≤ MAX_DISTANCE_KM)).insertionSort
    (fun a b => b.2.1 ≤ a.2.1) |>.take MAX_SUGGESTIONS

/-- `SuggestionsService.handleLocationOnly`. -/
def handleLocationOnly (env : Env) (latitude longitude : ℚ) : List Suggestion :=
  (getNearbyCities env latitude longitude).map fun m =>
    createSuggestion env m.1 m.2.1 (some latitude) (some longitude)

/-- `SuggestionsService.rankAndLimitSuggestions`: stable descending sort
by score, then `slice(0, MAX_SUGGESTIONS)`. -/
def rankAndLimitSuggestions (suggestions : List Suggestion) : List Suggestion :=
  (suggestions.insertionSort fun a b => b.score ≤ a.score).take MAX_SUGGESTIONS

/-- `SuggestionsService.getSuggestions(query)`: branch on `!!query.q`
(`hasQuery`, false for an absent and for an empty string) and on
`latitude !== undefined && longitude !== undefined` (`hasCoordinates`),
then rank and cap the accumulated suggestions. -/
def getSuggestions (env : Env) (q : Option (List Char)) (latitude longitude : Option ℚ) :
    List Suggestion :=
  let suggestions :=
    match latitude, longitude with
    | some la, some lo =>
      match q with
      | some s => if s ≠ [] then handleQueryWithLocation env s la lo
                  else handleLocationOnly env la lo
      | none => handleLocationOnly env la lo
    | _, _ =>
      match q with
      | some s => if s ≠ [] then handleQueryOnly env s else []
      | none => []
  rankAndLimitSuggestions suggestions

/-! ## Characterisation of the trie

`termAt t w` is the terminal data stored at the node reached by `w`:
the specification-level view of the index as a partial map from strings
to `(city, weight)` pairs. -/

/-- The `(city, weight)` pair stored at the end of the walk `w`, if that
node exists and is terminal. -/
def termAt (t : TrieNode) (w : List Char) : Option (City × ℚ) :=
  match searchNode t w with
  | none => none
  | some n => if n.isEndOfWord then n.city.map (fun c => (c, n.weight)) else none

/-! Well-formedness of a trie: child keys are unique (a `Map` property)
and terminal data is complete (`insertWord` always stores the city with
the marker).  Both hold for the fresh root and are preserved by
insertion. -/

mutual
def TrieNode.wf : TrieNode → Prop
  | .mk ch e _ city => (e = true → city.isSome) ∧ ch.keys.Nodup ∧ ch.wfAll
def Children.wfAll : Children → Prop
  | .nil => True
  | .cons _ t rest => t.wf ∧ rest.wfAll
end

/-! ## The built trie as a map

The whole index build is a sequence of `insertWord` operations; the
terminal map of the result is "the last write wins per exact word". -/

/-- One `insertWord` call: the word, the city and the weight. -/
abbrev TrieOp := List Char × City × ℚ

/-- Run a list of `insertWord` operations in order. -/
def applyOps (t : TrieNode) (ops : List TrieOp) : TrieNode :=
  ops.foldl (fun t' op => insertWord t' op.1 op.2.1 op.2.2) t

/-- The `(city, weight)` stored by the last operation writing word `w`. -/
def lastWrite : List TrieOp → List Char → Option (City × ℚ)
  | [], _ => none
  | op :: rest, w =>
    match lastWrite rest w with
    | some x => some x
    | none => if op.1 = w then some op.2 else none

/-- The operations performed by `TrieService.insert(city)`. -/
def cityOps (city : City) : List TrieOp :=
  (cityWords city).map fun p => (p.1, city, p.2)

/-- The operations performed by the whole index build. -/
def catalogOps (cities : List City) : List TrieOp :=
  cities.flatMap cityOps

/-! ## Concrete fixtures

Inputs (catalogs and environment primitives) used by the closed witness
and counterexample theorems below.  They are test data, not part of the
embedding. -/

/-- A zero distance function. -/
def dist0 : ℚ → ℚ → ℚ → ℚ → ℚ := fun _ _ _ _ => 0

/-- A distance function returning the city latitude, to place cities at
chosen distances. -/
def distLat : ℚ → ℚ → ℚ → ℚ → ℚ := fun a _ _ _ => a

/-- A zero logarithm stand-in. -/
def log0 : ℚ → ℚ := fun _ => 0

/-- A monotone logarithm stand-in with value 0 at 1. -/
def logLin : ℚ → ℚ := fun a => a - 1

/-- A fuzzy index with no hits. -/
def fz0 : List Char → List (ℚ × List Char) := fun _ => []

/-- A city named "aa" with alternate name "ab": both names match the
query "a". -/
def cityAA : City := ⟨1, ['a','a'], [], ['a','b'], 0, 0, [], 0, []⟩

/-- A city named "ab". -/
def cityAB : City := ⟨1, ['a','b'], [], [], 0, 0, [], 0, []⟩

/-- Two distinct cities that share the name "a". -/
def cityP : City := ⟨1, ['a'], [], [], 0, 0, [], 0, []⟩

def cityQ : City := ⟨2, ['a'], [], [], 0, 0, [], 0, []⟩

/-- A city at `distLat`-distance 0 from any caller. -/
def cityNear : City := ⟨1, ['n'], [], [], 0, 0, [], 0, []⟩

/-- A city at `distLat`-distance 2000 from any caller. -/
def cityFar : City := ⟨2, ['f'], [], [], 2000, 0, [], 0, []⟩

/-- A city with population 100. -/
def cityX : City := ⟨1, ['x'], [], [], 0, 0, [], 100, []⟩

/-- A city with population 10. -/
def cityY : City := ⟨2, ['y'], [], [], 0, 0, [], 10, []⟩

/-- The duplicate-match environment: one city, queried so that two of its
name fields hit. -/
def envDup : Env := ⟨[cityAA], dist0, log0, fz0⟩

/-- An empty catalog whose fuzzy index still reports a hit for "x". -/
def envNoCatalog : Env := ⟨[], dist0, log0, fun _ => [(1, ['x'])]⟩

/-- A two-city geographic environment for the coordinates-only branch. -/
def envGeo : Env := ⟨[cityNear, cityFar], distLat, log0, fz0⟩

/-- A one-city environment. -/
def envOne : Env := ⟨[cityNear], dist0, log0, fz0⟩

/-- A one-city environment for query-only requests. -/
def envQ : Env := ⟨[cityP], dist0, log0, fz0⟩

/-- A two-city environment with distinct populations. -/
def envPop : Env := ⟨[cityX, cityY], dist0, logLin, fz0⟩

/-- A city with population exactly 1. -/
def cityOne : City := ⟨1, ['o'], [], [], 0, 0, [], 1, []⟩

/-- A city with population 0. -/
def cityZero : City := ⟨2, ['z'], [], [], 0, 0, [], 0, []⟩

/-- A catalog whose maximum population is exactly 1: the population
divisor is `ceil(log10 1) = 0` and the source scores `cityOne` as
`0 / 0`, the IEEE NaN. -/
def envNaN : Env := ⟨[cityOne], dist0, logLin, fz0⟩

/-- The same degenerate maximum population 1, with a second,
zero-population city. -/
def envNaN2 : Env := ⟨[cityOne, cityZero], dist0, logLin, fz0⟩

theorem Children.get_set : ∀ (ch : Children) (c c' : Char) (n : TrieNode),
    (ch.set c n).get c' = if c = c' then some n else ch.get c'
  | .nil, c, c', n => by simp [Children.set, Children.get]
  | .cons k t rest, c, c', n => by
    by_cases hkc : k = c
    · subst hkc
      simp only [Children.set, if_pos rfl]
      by_cases hkc' : k = c'
      · subst hkc'; simp [Children.get]
      · have h2 : ¬ k = c' := hkc'
        simp [Children.get, hkc', h2]
    · simp only [Children.set, if_neg hkc]
      by_cases hkc' : k = c'
      · subst hkc'
        have h2 : ¬ k = c := fun h => hkc h
        have h3 : ¬ c = k := fun h => hkc h.symm
        simp [Children.get, h3]
      · simp [Children.get, hkc', Children.get_set rest c c' n]

theorem termAt_nil (ch : Children) (e : Bool) (w : ℚ) (city : Option City) :
    termAt (.mk ch e w city) [] =
      if e then city.map (fun c => (c, w)) else none := rfl

theorem termAt_cons (ch : Children) (e : Bool) (w : ℚ) (city : Option City)
    (a : Char) (v : List Char) :
    termAt (.mk ch e w city) (a :: v) =
      match ch.get a with
      | none => none
      | some n => termAt n v := by
  show (match (match ch.get a with
              | none => none
              | some child => searchNode child v) with
        | none => none
        | some n => if n.isEndOfWord then n.city.map (fun c => (c, n.weight)) else none) = _
  cases ch.get a <;> rfl

theorem termAt_empty (w : List Char) : termAt TrieNode.empty w = none := by
  cases w with
  | nil => rfl
  | cons a v => rfl

theorem termAt_insertWord (w : List Char) :
    ∀ (t : TrieNode) (city : City) (q : ℚ) (v : List Char),
      termAt (insertWord t w city q) v =
        if v = w then some (city, q) else termAt t v := by
  induction w with
  | nil =>
    intro t city q v
    obtain ⟨ch, e, w0, c0⟩ := t
    cases v with
    | nil => simp [insertWord, termAt_nil]
    | cons a v' => simp [insertWord, termAt_cons]
  | cons a w' ih =>
    intro t city q v
    obtain ⟨ch, e, w0, c0⟩ := t
    cases v with
    | nil => simp [insertWord, termAt_nil]
    | cons b v' =>
      rw [show insertWord (.mk ch e w0 c0) (a :: w') city q =
            .mk (ch.set a (insertWord (match ch.get a with
                | some n => n
                | none => TrieNode.empty) w' city q)) e w0 c0 from rfl]
      rw [termAt_cons, Children.get_set]
      by_cases hab : a = b
      · subst hab
        simp only [if_pos rfl]
        show termAt (insertWord _ w' city q) v' = _
        rw [ih]
        by_cases hv : v' = w'
        · subst hv; simp
        · have hav : ¬ (a :: v') = (a :: w') := by
            intro h; injection h with _ h2; exact hv h2
          rw [if_neg hv, if_neg hav, termAt_cons]
          cases hg : ch.get a with
          | none => simp [termAt_empty]
          | some n => simp
      · have hba : ¬ (b :: v') = (a :: w') := by
          intro h; injection h with h1 _; exact hab h1.symm
        rw [if_neg hab, if_neg hba, termAt_cons]


theorem wf_empty : TrieNode.empty.wf := by
  refine ⟨fun h => by simp at h, ?_, trivial⟩
  simp [Children.keys]

theorem Children.get_mem_keys : ∀ (ch : Children) (c : Char) (n : TrieNode),
    ch.get c = some n → c ∈ ch.keys
  | .nil, c, n, h => by simp [Children.get] at h
  | .cons k t rest, c, n, h => by
    simp only [Children.get] at h
    by_cases hkc : k = c
    · subst hkc; simp [Children.keys]
    · rw [if_neg hkc] at h
      simp [Children.keys, Children.get_mem_keys rest c n h]

theorem Children.wf_of_get : ∀ (ch : Children) (c : Char) (n : TrieNode),
    ch.wfAll → ch.get c = some n → n.wf
  | .nil, c, n, _, h => by simp [Children.get] at h
  | .cons k t rest, c, n, hwf, h => by
    simp only [Children.get] at h
    by_cases hkc : k = c
    · rw [if_pos hkc] at h
      cases h; exact hwf.1
    · rw [if_neg hkc] at h
      exact Children.wf_of_get rest c n hwf.2 h

theorem Children.keys_set : ∀ (ch : Children) (c : Char) (n : TrieNode),
    (ch.set c n).keys = if c ∈ ch.keys then ch.keys else ch.keys ++ [c]
  | .nil, c, n => by simp [Children.set, Children.keys]
  | .cons k t rest, c, n => by
    by_cases hkc : k = c
    · subst hkc
      simp [Children.set, Children.keys]
    · have h2 : ¬ c = k := fun h => hkc h.symm
      simp only [Children.set, if_neg hkc, Children.keys, Children.keys_set rest c n,
        List.mem_cons, h2, false_or]
      by_cases hm : c ∈ rest.keys <;> simp [hm]

theorem Children.wfAll_set : ∀ (ch : Children) (c : Char) (n : TrieNode),
    ch.wfAll → n.wf → (ch.set c n).wfAll
  | .nil, c, n, _, hn => ⟨hn, trivial⟩
  | .cons k t rest, c, n, hwf, hn => by
    by_cases hkc : k = c
    · simp only [Children.set, if_pos hkc]
      exact ⟨hn, hwf.2⟩
    · simp only [Children.set, if_neg hkc]
      exact ⟨hwf.1, Children.wfAll_set rest c n hwf.2 hn⟩

theorem wf_insertWord (w : List Char) :
    ∀ (t : TrieNode) (city : City) (q : ℚ), t.wf → (insertWord t w city q).wf := by
  induction w with
  | nil =>
    intro t city q hwf
    obtain ⟨ch, e, w0, c0⟩ := t
    exact ⟨fun _ => rfl, hwf.2.1, hwf.2.2⟩
  | cons a w' ih =>
    intro t city q hwf
    obtain ⟨ch, e, w0, c0⟩ := t
    refine ⟨hwf.1, ?_, ?_⟩
    · rw [Children.keys_set]
      by_cases hm : a ∈ ch.keys
      · simpa [hm] using hwf.2.1
      · simp only [if_neg hm]
        rw [List.nodup_append]
        exact ⟨hwf.2.1, List.nodup_singleton a, by simpa using hm⟩
    · apply Children.wfAll_set _ _ _ hwf.2.2
      apply ih
      cases hg : ch.get a with
      | none => simpa [hg] using wf_empty
      | some n => simpa [hg] using Children.wf_of_get ch a n hwf.2.2 hg

/-! `collectWords` enumerates exactly the stored terminal data: membership
in a subtree collection is membership in the terminal map. -/

theorem mem_termEntry (e : Bool) (w : ℚ) (city : Option City) (x : City × ℚ) :
    x ∈ termEntry e w city ↔ (e = true ∧ city = some x.1 ∧ x.2 = w) := by
  obtain ⟨x1, x2⟩ := x
  cases e <;> cases city <;> simp [termEntry, Prod.ext_iff, eq_comm, and_comm]

theorem termAt_nil_eq_some (ch : Children) (e : Bool) (w : ℚ) (city : Option City)
    (x : City × ℚ) :
    (termAt (.mk ch e w city) [] = some x) ↔
      (e = true ∧ city = some x.1 ∧ x.2 = w) := by
  obtain ⟨x1, x2⟩ := x
  cases e <;> cases city <;> simp [termAt_nil, Prod.ext_iff, eq_comm, and_comm]

mutual
theorem mem_collectWords : ∀ (t : TrieNode), t.wf → ∀ (x : City × ℚ),
    (x ∈ collectWords t ↔ ∃ w, termAt t w = some x)
  | .mk ch e w city, hwf, x => by
    rw [collectWords, List.mem_append, mem_termEntry]
    constructor
    · intro hx
      rcases hx with hx | hx
      · exact ⟨[], (termAt_nil_eq_some ch e w city x).mpr hx⟩
      · obtain ⟨c, n, hget, w', hw'⟩ :=
          (mem_collectChildren ch hwf.2.1 hwf.2.2 x).mp hx
        exact ⟨c :: w', by rw [termAt_cons, hget]; exact hw'⟩
    · rintro ⟨w', hw'⟩
      cases w' with
      | nil => exact Or.inl ((termAt_nil_eq_some ch e w city x).mp hw')
      | cons a v =>
        rw [termAt_cons] at hw'
        right
        cases hg : ch.get a with
        | none => rw [hg] at hw'; simp at hw'
        | some n =>
          rw [hg] at hw'
          exact (mem_collectChildren ch hwf.2.1 hwf.2.2 x).mpr ⟨a, n, hg, v, hw'⟩
theorem mem_collectChildren : ∀ (ch : Children), ch.keys.Nodup → ch.wfAll →
    ∀ (x : City × ℚ),
    (x ∈ collectChildren ch ↔ ∃ c n, ch.get c = some n ∧ ∃ w, termAt n w = some x)
  | .nil, _, _, x => by
    simp [collectChildren, Children.get]
  | .cons k t rest, hnd, hwf, x => by
    simp only [Children.keys, List.nodup_cons] at hnd
    rw [collectChildren, List.mem_append]
    constructor
    · intro hx
      rcases hx with hx | hx
      · obtain ⟨w, hw⟩ := (mem_collectWords t hwf.1 x).mp hx
        exact ⟨k, t, by simp [Children.get], w, hw⟩
      · obtain ⟨c, n, hget, w, hw⟩ :=
          (mem_collectChildren rest hnd.2 hwf.2 x).mp hx
        have hkc : ¬ k = c := by
          intro h; subst h
          exact hnd.1 (Children.get_mem_keys rest k n hget)
        exact ⟨c, n, by simp [Children.get, hkc, hget], w, hw⟩
    · rintro ⟨c, n, hget, w, hw⟩
      simp only [Children.get] at hget
      by_cases hkc : k = c
      · rw [if_pos hkc] at hget
        cases hget
        exact Or.inl ((mem_collectWords t hwf.1 x).mpr ⟨w, hw⟩)
      · rw [if_neg hkc] at hget
        exact Or.inr ((mem_collectChildren rest hnd.2 hwf.2 x).mpr ⟨c, n, hget, w, hw⟩)
end


theorem termAt_applyOps (ops : List TrieOp) :
    ∀ (t : TrieNode) (w : List Char),
      termAt (applyOps t ops) w =
        match lastWrite ops w with
        | some x => some x
        | none => termAt t w := by
  induction ops with
  | nil => intro t w; rfl
  | cons op rest ih =>
    intro t w
    show termAt (applyOps (insertWord t op.1 op.2.1 op.2.2) rest) w = _
    rw [ih, lastWrite]
    cases hlw : lastWrite rest w with
    | some x => rfl
    | none =>
      rw [termAt_insertWord]
      by_cases hw : w = op.1
      · simp [hw]
      · have : ¬ op.1 = w := fun h => hw h.symm
        simp [hw, this]

theorem wf_applyOps (ops : List TrieOp) :
    ∀ (t : TrieNode), t.wf → (applyOps t ops).wf := by
  induction ops with
  | nil => intro t h; exact h
  | cons op rest ih =>
    intro t h
    exact ih _ (wf_insertWord op.1 t op.2.1 op.2.2 h)

theorem lastWrite_mem {ops : List TrieOp} {w : List Char} {x : City × ℚ}
    (h : lastWrite ops w = some x) : (w, x) ∈ ops := by
  induction ops with
  | nil => simp [lastWrite] at h
  | cons op rest ih =>
    rw [lastWrite] at h
    cases hlw : lastWrite rest w with
    | some y =>
      rw [hlw] at h; cases h
      exact List.mem_cons_of_mem _ (ih hlw)
    | none =>
      rw [hlw] at h
      by_cases hw : op.1 = w
      · rw [if_pos hw] at h; cases h
        exact List.mem_cons.mpr (Or.inl (by rw [← hw]))
      · rw [if_neg hw] at h; cases h

theorem lastWrite_isSome_of_mem {ops : List TrieOp} {w : List Char} {x : City × ℚ}
    (h : (w, x) ∈ ops) : ∃ y, lastWrite ops w = some y := by
  induction ops with
  | nil => simp at h
  | cons op rest ih =>
    rw [lastWrite]
    cases hlw : lastWrite rest w with
    | some y => exact ⟨y, rfl⟩
    | none =>
      rcases List.mem_cons.mp h with h1 | h1
      · subst h1
        exact ⟨x, by simp⟩
      · obtain ⟨y, hy⟩ := ih h1
        rw [hy] at hlw
        cases hlw

theorem applyOps_append (l₁ l₂ : List TrieOp) (t : TrieNode) :
    applyOps t (l₁ ++ l₂) = applyOps (applyOps t l₁) l₂ := by
  simp only [applyOps, List.foldl_append]

theorem lastWrite_append (l₁ l₂ : List TrieOp) (w : List Char) :
    lastWrite (l₁ ++ l₂) w =
      match lastWrite l₂ w with
      | some x => some x
      | none => lastWrite l₁ w := by
  induction l₁ with
  | nil =>
    cases hlw : lastWrite l₂ w <;> simp [lastWrite, hlw]
  | cons op rest ih =>
    show lastWrite (op :: (rest ++ l₂)) w = _
    rw [lastWrite, ih, lastWrite]
    cases hlw : lastWrite l₂ w with
    | some x => rfl
    | none => rfl

theorem trieInsert_eq (t : TrieNode) (city : City) :
    trieInsert t city = applyOps t (cityOps city) := by
  rw [trieInsert, cityOps, applyOps, List.foldl_map]

theorem catalogOps_cons (c : City) (rest : List City) :
    catalogOps (c :: rest) = cityOps c ++ catalogOps rest := by
  simp [catalogOps]

theorem foldl_trieInsert_eq (cities : List City) :
    ∀ (t : TrieNode), cities.foldl trieInsert t = applyOps t (catalogOps cities) := by
  induction cities with
  | nil => intro t; rfl
  | cons c rest ih =>
    intro t
    show rest.foldl trieInsert (trieInsert t c) = applyOps t (catalogOps (c :: rest))
    rw [ih, catalogOps_cons, applyOps_append, ← trieInsert_eq]

theorem trieOf_eq (cities : List City) :
    trieOf cities = applyOps TrieNode.empty (catalogOps cities) :=
  foldl_trieInsert_eq cities TrieNode.empty

theorem searchNode_append (p : List Char) :
    ∀ (t : TrieNode) (s : List Char),
      searchNode t (p ++ s) =
        match searchNode t p with
        | none => none
        | some n => searchNode n s := by
  induction p with
  | nil => intro t s; rfl
  | cons a p' ih =>
    intro t s
    show (match t.children.get a with
          | none => none
          | some child => searchNode child (p' ++ s)) =
        match (match t.children.get a with
               | none => none
               | some child => searchNode child p') with
        | none => none
        | some n => searchNode n s
    cases hg : t.children.get a with
    | none => rfl
    | some child => exact ih child s

theorem wf_searchNode (p : List Char) :
    ∀ (t n : TrieNode), t.wf → searchNode t p = some n → n.wf := by
  induction p with
  | nil =>
    intro t n hwf h
    cases h; exact hwf
  | cons a p' ih =>
    intro t n hwf h
    obtain ⟨ch, e, w0, c0⟩ := t
    rw [show searchNode (.mk ch e w0 c0) (a :: p') =
          (match ch.get a with
           | none => none
           | some child => searchNode child p') from rfl] at h
    cases hg : ch.get a with
    | none => rw [hg] at h; cases h
    | some child =>
      rw [hg] at h
      exact ih child n (Children.wf_of_get ch a child hwf.2.2 hg) h

theorem termAt_append_of_searchNode {t n : TrieNode} {p : List Char}
    (h : searchNode t p = some n) (s : List Char) :
    termAt t (p ++ s) = termAt n s := by
  rw [termAt, searchNode_append, h, ← termAt]

theorem termAt_append_of_searchNode_none {t : TrieNode} {p : List Char}
    (h : searchNode t p = none) (s : List Char) :
    termAt t (p ++ s) = none := by
  rw [termAt, searchNode_append, h]

/-- Membership characterisation of `TrieService.search`: a `(city,
weight)` pair is returned for prefix `p` exactly when some word extending
the lower-cased `p` stores it in the terminal map. -/
theorem mem_trieSearch (t : TrieNode) (hwf : t.wf) (p : List Char) (x : City × ℚ) :
    x ∈ trieSearch t p ↔ ∃ s, termAt t (jsLower p ++ s) = some x := by
  rw [trieSearch]
  cases hs : searchNode t (jsLower p) with
  | none =>
    simp only [List.not_mem_nil, false_iff, not_exists]
    intro s hcon
    rw [termAt_append_of_searchNode_none hs s] at hcon
    cases hcon
  | some n =>
    rw [mem_collectWords n (wf_searchNode (jsLower p) t n hwf hs) x]
    constructor
    · rintro ⟨w, hw⟩
      exact ⟨w, by rw [termAt_append_of_searchNode hs w]; exact hw⟩
    · rintro ⟨s, hsx⟩
      exact ⟨s, by rw [← termAt_append_of_searchNode hs s]; exact hsx⟩

/-- The terminal map of the built index is the last write per word. -/
theorem termAt_trieOf (cities : List City) (w : List Char) :
    termAt (trieOf cities) w = lastWrite (catalogOps cities) w := by
  rw [trieOf_eq, termAt_applyOps]
  cases hlw : lastWrite (catalogOps cities) w with
  | some x => rfl
  | none => exact termAt_empty w

theorem wf_trieOf (cities : List City) : (trieOf cities).wf := by
  rw [trieOf_eq]
  exact wf_applyOps (catalogOps cities) TrieNode.empty wf_empty

theorem mem_catalogOps {cities : List City} {op : TrieOp} :
    op ∈ catalogOps cities ↔
      op.2.1 ∈ cities ∧ (op.1, op.2.2) ∈ cityWords op.2.1 := by
  obtain ⟨w, c, q⟩ := op
  rw [catalogOps, List.mem_flatMap]
  constructor
  · rintro ⟨c', hc', hop⟩
    rw [cityOps, List.mem_map] at hop
    obtain ⟨p, hp, hpe⟩ := hop
    obtain ⟨p1, p2⟩ := p
    cases hpe
    exact ⟨hc', hp⟩
  · rintro ⟨hc, hw⟩
    exact ⟨c, hc, by rw [cityOps, List.mem_map]; exact ⟨(w, q), hw, rfl⟩⟩

mutual
theorem length_collectWords : ∀ (t : TrieNode), t.wf →
    (collectWords t).length = countTerminals t
  | .mk ch e w city, hwf => by
    rw [collectWords, List.length_append, countTerminals,
      length_collectChildren ch hwf.2.2]
    congr 1
    cases e with
    | false => cases city <;> rfl
    | true =>
      cases hc : city with
      | none => exact absurd (hwf.1 rfl) (by rw [hc]; simp)
      | some c => rfl
theorem length_collectChildren : ∀ (ch : Children), ch.wfAll →
    (collectChildren ch).length = countTerminalsChildren ch
  | .nil, _ => rfl
  | .cons k t rest, hwf => by
    rw [collectChildren, List.length_append, countTerminalsChildren,
      length_collectWords t hwf.1, length_collectChildren rest hwf.2]
end

/-- `Math.ceil` on a rational agrees with the mathematical ceiling. -/
theorem ratCeil_eq (q : ℚ) : (Rat.ceil q : ℤ) = ⌈q⌉ := by
  unfold Rat.ceil
  split
  · next h =>
    have hnum : (q.num : ℚ) = q := (Rat.den_eq_one_iff q).mp h
    rw [← hnum, Int.ceil_intCast]
    simp
  · next h =>
    have hfl : q.num / (q.den : ℤ) = ⌊q⌋ := (Rat.floor_def).symm
    rw [hfl]
    have h1 : ⌈q⌉ ≤ ⌊q⌋ + 1 := Int.ceil_le_floor_add_one q
    have h2 : ⌊q⌋ < ⌈q⌉ := by
      rcases lt_or_le ⌊q⌋ ⌈q⌉ with hlt | hle
      · exact hlt
      · exfalso
        have hq1 : q ≤ (⌈q⌉ : ℚ) := Int.le_ceil q
        have hq2 : ((⌈q⌉ : ℤ) : ℚ) ≤ ((⌊q⌋ : ℤ) : ℚ) := by exact_mod_cast hle
        have hq3 : ((⌊q⌋ : ℤ) : ℚ) ≤ q := Int.floor_le q
        have : q = ((⌊q⌋ : ℤ) : ℚ) := le_antisymm (hq1.trans hq2) hq3
        have hden : q.den = 1 := by rw [this]; exact Rat.den_intCast _
        exact h hden
    omega

/-! ## Orchestrator lemmas -/

theorem mem_of_mem_rankAndLimit {s : Suggestion} {l : List Suggestion}
    (h : s ∈ rankAndLimitSuggestions l) : s ∈ l :=
  (List.mem_insertionSort _).mp (List.mem_of_mem_take h)

theorem trieSearch_empty_root (p : List Char) : trieSearch TrieNode.empty p = [] := by
  rw [trieSearch]
  cases hjp : jsLower p with
  | nil => rfl
  | cons c rest => rfl

theorem findMatches_nil_catalog (dist : ℚ → ℚ → ℚ → ℚ → ℚ) (lg : ℚ → ℚ)
    (fz : List Char → List (ℚ × List Char)) (q : List Char) :
    findMatches ⟨[], dist, lg, fz⟩ q = [] := by
  rw [findMatches]
  show (fz q).filterMap _ = []
  generalize fz q = l
  induction l with
  | nil => rfl
  | cons a l ih =>
    rw [List.filterMap_cons]
    exact ih

theorem rankAndLimit_perm {l : List Suggestion} (h : l.length ≤ MAX_SUGGESTIONS) :
    List.Perm (rankAndLimitSuggestions l) l := by
  rw [rankAndLimitSuggestions,
    List.take_of_length_le (by rw [List.length_insertionSort]; exact h)]
  exact List.perm_insertionSort _ l

theorem le_getMaxPopulation {cities : List City} {c : City} (hc : c ∈ cities) :
    c.population ≤ getMaxPopulation cities := by
  rw [getMaxPopulation]
  have key : ∀ (l : List ℕ) (i : ℕ),
      i ≤ l.foldl max i ∧ ∀ a ∈ l, a ≤ l.foldl max i := by
    intro l
    induction l with
    | nil => intro i; exact ⟨le_refl i, by simp⟩
    | cons b l ih =>
      intro i
      refine ⟨le_trans (le_max_left i b) (ih (max i b)).1, ?_⟩
      intro a ha
      rcases List.mem_cons.mp ha with rfl | ha'
      · exact le_trans (le_max_right i a) (ih (max i a)).1
      · exact (ih (max i b)).2 a ha'
  exact (key _ 0).2 c.population (List.mem_map.mpr ⟨c, hc, rfl⟩)

theorem combineScores_self (x : ℚ) : combineScores x x PROXIMITY_WEIGHT = x := by
  rw [combineScores]; ring

theorem createSuggestion_coords (env : Env) (c : City) (la lo : ℚ) :
    createSuggestion env c (calculateProximityScore env c.latitude c.longitude la lo).2
        (some la) (some lo) =
      ⟨formatCityName c, c.latitude, c.longitude,
        (calculateProximityScore env c.latitude c.longitude la lo).2⟩ := by
  rw [createSuggestion]
  exact congrArg _ (combineScores_self _)

theorem mem_getNearbyCities {env : Env} {la lo : ℚ} {m : City × ℚ × ℚ}
    (hm : m ∈ getNearbyCities env la lo) :
    ∃ c ∈ env.cities,
      m = (c, (calculateProximityScore env c.latitude c.longitude la lo).2,
            env.dist c.latitude c.longitude la lo) ∧
      env.dist c.latitude c.longitude la lo ≤ MAX_DISTANCE_KM := by
  rw [getNearbyCities] at hm
  have hm2 := (List.mem_insertionSort _).mp (List.mem_of_mem_take hm)
  obtain ⟨hmem, hdist⟩ := List.mem_filter.mp hm2
  obtain ⟨c, hc, rfl⟩ := List.mem_map.mp hmem
  refine ⟨c, hc, rfl, ?_⟩
  simpa using hdist

theorem prox_bounds (env : Env) (hd : ∀ a b c d, 0 ≤ env.dist a b c d) (a b c d : ℚ) :
    0 ≤ (calculateProximityScore env a b c d).2 ∧
      (calculateProximityScore env a b c d).2 ≤ 1 := by
  show 0 ≤ max 0 (1 - env.dist a b c d / MAX_DISTANCE_KM) ∧
    max 0 (1 - env.dist a b c d / MAX_DISTANCE_KM) ≤ 1
  constructor
  · exact le_max_left 0 _
  · apply max_le
    · norm_num
    · have h1 : 0 ≤ env.dist a b c d / MAX_DISTANCE_KM :=
        div_nonneg (hd a b c d) (by norm_num [MAX_DISTANCE_KM])
      linarith

theorem popScore_bounds (env : Env)
    (hmono : ∀ a b : ℚ, 1 ≤ a → a ≤ b → env.log10 a ≤ env.log10 b)
    (hpos : ∀ a : ℚ, 1 ≤ a → 0 ≤ env.log10 a)
    (c : City) (hc : c ∈ env.cities) (hnan : ¬ populationScoreIsNaN env c) :
    0 ≤ calculatePopulationScore env c ∧ calculatePopulationScore env c ≤ 1 := by
  rw [calculatePopulationScore]
  by_cases h0 : c.population = 0
  · rw [if_neg (by simpa using h0)]
    norm_num
  · rw [if_pos (by simpa using h0)]
    have h1 : 1 ≤ c.population := Nat.one_le_iff_ne_zero.mpr h0
    have h1Q : (1 : ℚ) ≤ c.population := by exact_mod_cast h1
    have hmaxN : c.population ≤ getMaxPopulation env.cities := le_getMaxPopulation hc
    have hmaxQ : (c.population : ℚ) ≤ (getMaxPopulation env.cities : ℚ) := by
      exact_mod_cast hmaxN
    have hmax1Q : (1 : ℚ) ≤ (getMaxPopulation env.cities : ℚ) := le_trans h1Q hmaxQ
    have hLc : 0 ≤ env.log10 c.population := hpos _ h1Q
    have hLmax : env.log10 c.population ≤ env.log10 (getMaxPopulation env.cities) :=
      hmono _ _ h1Q hmaxQ
    have hceil : (env.log10 (getMaxPopulation env.cities) : ℚ) ≤ popDivisor env := by
      rw [popDivisor, ratCeil_eq]
      exact Int.le_ceil _
    have hD0 : (0 : ℚ) ≤ popDivisor env := le_trans (le_trans hLc hLmax) hceil
    have hDne : popDivisor env ≠ 0 := by
      intro hD
      exact hnan ⟨h0, le_antisymm (le_trans hLmax (hD ▸ hceil)) hLc, hD⟩
    have hDpos : (0 : ℚ) < popDivisor env := lt_of_le_of_ne hD0 (Ne.symm hDne)
    constructor
    · exact div_nonneg hLc hD0
    · rw [div_le_one hDpos]
      exact le_trans hLmax hceil

theorem combineScores_bounds {t a w : ℚ} (ht0 : 0 ≤ t) (ht1 : t ≤ 1)
    (ha0 : 0 ≤ a) (ha1 : a ≤ 1) (hw0 : 0 ≤ w) (hw1 : w ≤ 1) :
    0 ≤ combineScores t a w ∧ combineScores t a w ≤ 1 := by
  rw [combineScores]
  constructor
  · have h1 : 0 ≤ t * (1 - w) := mul_nonneg ht0 (by linarith)
    have h2 : 0 ≤ a * w := mul_nonneg ha0 hw0
    linarith
  · have h1 : t * (1 - w) ≤ 1 * (1 - w) := mul_le_mul_of_nonneg_right ht1 (by linarith)
    have h2 : a * w ≤ 1 * w := mul_le_mul_of_nonneg_right ha1 hw0
    linarith

theorem createSuggestion_score_bounds (env : Env)
    (hd : ∀ a b c d, 0 ≤ env.dist a b c d)
    (hmono : ∀ a b : ℚ, 1 ≤ a → a ≤ b → env.log10 a ≤ env.log10 b)
    (hpos : ∀ a : ℚ, 1 ≤ a → 0 ≤ env.log10 a)
    (c : City) (hc : c ∈ env.cities) (hnan : ¬ populationScoreIsNaN env c)
    (t : ℚ) (ht0 : 0 ≤ t) (ht1 : t ≤ 1)
    (ulat ulon : Option ℚ) :
    0 ≤ (createSuggestion env c t ulat ulon).score ∧
      (createSuggestion env c t ulat ulon).score ≤ 1 := by
  rcases ulat with _ | la <;> rcases ulon with _ | lo
  case some.some =>
    show 0 ≤ combineScores t (calculateProximityScore env c.latitude c.longitude la lo).2
        PROXIMITY_WEIGHT ∧ _ ≤ 1
    obtain ⟨hp0, hp1⟩ := prox_bounds env hd c.latitude c.longitude la lo
    exact combineScores_bounds ht0 ht1 hp0 hp1 (by norm_num [PROXIMITY_WEIGHT])
      (by norm_num [PROXIMITY_WEIGHT])
  all_goals {
    show 0 ≤ combineScores t (calculatePopulationScore env c) POPULATION_WEIGHT ∧ _ ≤ 1
    obtain ⟨hp0, hp1⟩ := popScore_bounds env hmono hpos c hc hnan
    exact combineScores_bounds ht0 ht1 hp0 hp1 (by norm_num [POPULATION_WEIGHT])
      (by norm_num [POPULATION_WEIGHT])
  }

theorem cityWords_weight {c : City} {w : List Char} {q : ℚ}
    (h : (w, q) ∈ cityWords c) :
    q = NAME_WEIGHT ∨ q = ASCII_WEIGHT ∨ q = ALT_NAME_WEIGHT := by
  rw [cityWords] at h
  rcases List.mem_cons.mp h with h | h
  · rw [Prod.ext_iff] at h
    exact Or.inl h.2
  · rcases List.mem_append.mp h with h | h
    · by_cases ha : c.ascii ≠ []
      · rw [if_pos ha] at h
        rw [List.mem_singleton, Prod.ext_iff] at h
        exact Or.inr (Or.inl h.2)
      · rw [if_neg ha] at h
        cases h
    · by_cases halt : c.altName ≠ []
      · rw [if_pos halt] at h
        obtain ⟨n, _, hn⟩ := List.mem_map.mp h
        rw [Prod.ext_iff] at hn
        exact Or.inr (Or.inr hn.2.symm)
      · rw [if_neg halt] at h
        cases h

theorem trieSearch_textScore {cities : List City} {p : List Char} {x : City × ℚ}
    (hx : x ∈ trieSearch (trieOf cities) p) :
    x.1 ∈ cities ∧ 0 ≤ x.2 ∧ x.2 ≤ 1 := by
  obtain ⟨s, hterm⟩ := (mem_trieSearch _ (wf_trieOf cities) p x).mp hx
  rw [termAt_trieOf] at hterm
  have hmem := mem_catalogOps.mp (lastWrite_mem hterm)
  refine ⟨hmem.1, ?_⟩
  rcases cityWords_weight hmem.2 with hq | hq | hq <;>
    rw [hq] <;> constructor <;>
    norm_num [NAME_WEIGHT, ASCII_WEIGHT, ALT_NAME_WEIGHT]

theorem mapGet_mem : ∀ (m : List (List Char × City)) (n : List Char) (c : City),
    mapGet m n = some c → (n, c) ∈ m
  | [], n, c, h => by simp [mapGet] at h
  | (k, v) :: rest, n, c, h => by
    rw [mapGet] at h
    by_cases hk : k = n
    · rw [if_pos hk] at h
      cases h
      exact List.mem_cons.mpr (Or.inl (by rw [hk]))
    · rw [if_neg hk] at h
      exact List.mem_cons.mpr (Or.inr (mapGet_mem rest n c h))

theorem mem_mapSet : ∀ (m : List (List Char × City)) (s : List Char) (v : City)
    (x : List Char × City), x ∈ mapSet m s v → x ∈ m ∨ x = (s, v)
  | [], s, v, x, h => by
    rw [mapSet, List.mem_singleton] at h
    exact Or.inr h
  | (k, w) :: rest, s, v, x, h => by
    rw [mapSet] at h
    by_cases hk : k = s
    · rw [if_pos hk] at h
      rcases List.mem_cons.mp h with h | h
      · subst hk
        exact Or.inr (by rw [h])
      · exact Or.inl (List.mem_cons.mpr (Or.inr h))
    · rw [if_neg hk] at h
      rcases List.mem_cons.mp h with h | h
      · exact Or.inl (List.mem_cons.mpr (Or.inl h))
      · rcases mem_mapSet rest s v x h with h | h
        · exact Or.inl (List.mem_cons.mpr (Or.inr h))
        · exact Or.inr h

theorem foldNames_values (P : City → Prop) (names : List (List Char)) :
    ∀ (m : List (List Char × City)) (c : City),
      (∀ k v, (k, v) ∈ m → P v) → P c →
      ∀ k v, (k, v) ∈ names.foldl (fun m' s => mapSet m' s c) m → P v := by
  induction names with
  | nil => intro m c hm _ k v hkv; exact hm k v hkv
  | cons s names ih =>
    intro m c hm hc k v hkv
    refine ih (mapSet m s c) c ?_ hc k v hkv
    intro k' v' hk'
    rcases mem_mapSet m s c (k', v') hk' with h | h
    · exact hm k' v' h
    · rw [Prod.ext_iff] at h
      have hv : v' = c := h.2
      rw [hv]
      exact hc

theorem cityMapOf_values {cities : List City} {k : List Char} {v : City}
    (h : (k, v) ∈ cityMapOf cities) : v ∈ cities := by
  rw [cityMapOf] at h
  have key : ∀ (l : List City) (m : List (List Char × City)),
      (∀ k' v', (k', v') ∈ m → v' ∈ cities) → (∀ c ∈ l, c ∈ cities) →
      ∀ k' v', (k', v') ∈ l.foldl
        (fun m' c => (fuzzyNames c).foldl (fun m'' s => mapSet m'' s c) m') m →
        v' ∈ cities := by
    intro l
    induction l with
    | nil => intro m hm _ k' v' h'; exact hm k' v' h'
    | cons c l ih =>
      intro m hm hl k' v' h'
      refine ih _ ?_ (fun c' hc' => hl c' (List.mem_cons.mpr (Or.inr hc'))) k' v' h'
      exact fun k'' v'' h'' =>
        foldNames_values (· ∈ cities) (fuzzyNames c) m c hm
          (hl c (List.mem_cons.mpr (Or.inl rfl))) k'' v'' h''
  exact key cities [] (by simp) (fun c hc => hc) k v h

theorem findMatches_bounds {env : Env} {p : List Char} {x : City × ℚ}
    (hf : ∀ (p' : List Char), ∀ y ∈ env.fuzzyGet p', 0 ≤ y.1 ∧ y.1 ≤ 1)
    (hx : x ∈ findMatches env p) :
    x.1 ∈ env.cities ∧ 0 ≤ x.2 ∧ x.2 ≤ 1 := by
  rw [findMatches] at hx
  obtain ⟨y, hy, hsome⟩ := List.mem_filterMap.mp hx
  cases hmg : mapGet (cityMapOf env.cities) y.2 with
  | none => rw [hmg] at hsome; cases hsome
  | some c =>
    rw [hmg] at hsome
    cases hsome
    exact ⟨cityMapOf_values (mapGet_mem _ _ _ hmg), hf p y hy⟩

/-! ## Claim theorems -/

/-- C1: the claimed deduplication by place identity does not happen.  In
the one-city catalog `envDup` the query "a" matches the city through both
its primary name "aa" and its alternate name "ab"; `getSuggestions`
accumulates suggestions in a `Set` of freshly created objects, which
never deduplicates, so the same place (display name "aa" at coordinates
(0, 0)) appears twice in the output: the result has length 2 and both of
its entries carry that place's name and coordinates. -/
theorem getSuggestions_duplicates_place :
    ((getSuggestions envDup (some ['a']) none none).countP
      (fun s => decide (s.name = ['a','a'] ∧ s.latitude = 0 ∧ s.longitude = 0)) = 2) ∧
    (getSuggestions envDup (some ['a']) none none).length = 2 := by
  have hperm : List.Perm (getSuggestions envDup (some ['a']) none none)
      (handleQueryOnly envDup ['a']) := by
    show List.Perm (rankAndLimitSuggestions _) _
    exact rankAndLimit_perm (by decide)
  constructor
  · rw [hperm.countP_eq]; decide
  · rw [hperm.length_eq]; decide

/-- C2 counterexample: with an empty catalog (`envNoCatalog`, whose fuzzy
index even reports a hit for the query) `getSuggestions` returns the
empty suggestion list; no `CatalogNotReady` (or any other) error
condition exists anywhere in the request path — the function returns an
ordinary list for every input. -/
theorem getSuggestions_empty_catalog_returns_empty_list :
    getSuggestions envNoCatalog (some ['x']) none none = [] := by rfl

/-- C2 (amended): on an empty catalog `getSuggestions` silently returns
the empty list for every query and coordinate combination instead of
failing with a distinguishable `CatalogNotReady` condition; the only
error in the sources is the `"Failed to load cities"` exception thrown by
`initializeCities` when the repository load itself rejects. -/
theorem getSuggestions_empty_catalog_always_empty
    (dist : ℚ → ℚ → ℚ → ℚ → ℚ) (lg : ℚ → ℚ)
    (fz : List Char → List (ℚ × List Char)) (q : Option (List Char))
    (lat lon : Option ℚ) :
    getSuggestions ⟨[], dist, lg, fz⟩ q lat lon = [] := by
  have htrie : ∀ p, trieSearch (trieOf ([] : List City)) p = [] :=
    fun p => trieSearch_empty_root p
  have hfm := findMatches_nil_catalog dist lg fz
  rcases q with _ | s
  · rcases lat with _ | la <;> rcases lon with _ | lo <;> rfl
  · by_cases hs : s = []
    · subst hs; rcases lat with _ | la <;> rcases lon with _ | lo <;> rfl
    · rcases lat with _ | la <;> rcases lon with _ | lo <;>
        simp [getSuggestions, hs, handleQueryOnly, handleQueryWithLocation, htrie, hfm,
          rankAndLimitSuggestions, List.insertionSort]

/-- C3 counterexample: completeness of `search` fails on the code as
claimed universally.  The two distinct places `cityP` and `cityQ` share
the indexed name "a"; the later insertion overwrites the terminal data of
that leaf, so although `cityP` has an indexed name starting with the
prefix "a", no entry for `cityP` is in the search result. -/
theorem trieSearch_drops_colliding_name_place :
    ((jsLower cityP.name, NAME_WEIGHT) ∈ cityWords cityP ∧
      jsLower ['a'] <+: jsLower cityP.name) ∧
    ∀ x ∈ trieSearch (trieOf [cityP, cityQ]) ['a'], x.1 ≠ cityP := by
  refine ⟨⟨by decide, ⟨[], rfl⟩⟩, by decide⟩

/-- C3 (amended): for every catalog and prefix, `search(prefix)` (i) is
sound — every returned `(city, weight)` pair comes with an indexed
lower-cased name of that city, carrying that field's weight, that starts
with the lower-cased prefix — (ii) returns the empty list whenever the
walk fails on some character, and (iii) is complete — it contains an
entry for every place one of whose indexed names starts with the prefix —
provided no two distinct places index an identical lower-cased string
(the last-insertion-wins terminal overwrite loses earlier places on such
collisions, as the counterexample shows). -/
theorem trieSearch_prefix_characterisation (cities : List City) (p : List Char) :
    (∀ x ∈ trieSearch (trieOf cities) p,
        x.1 ∈ cities ∧ ∃ w, jsLower p <+: w ∧ (w, x.2) ∈ cityWords x.1) ∧
    (searchNode (trieOf cities) (jsLower p) = none → trieSearch (trieOf cities) p = []) ∧
    ((∀ c₁ ∈ cities, ∀ c₂ ∈ cities, ∀ w q₁ q₂,
        (w, q₁) ∈ cityWords c₁ → (w, q₂) ∈ cityWords c₂ → c₁ = c₂) →
      ∀ c ∈ cities, ∀ w q, (w, q) ∈ cityWords c → jsLower p <+: w →
        ∃ q2, (c, q2) ∈ trieSearch (trieOf cities) p) := by
  refine ⟨?_, ?_, ?_⟩
  · intro x hx
    obtain ⟨s, hterm⟩ := (mem_trieSearch _ (wf_trieOf cities) p x).mp hx
    rw [termAt_trieOf] at hterm
    have hmem := mem_catalogOps.mp (lastWrite_mem hterm)
    exact ⟨hmem.1, jsLower p ++ s, ⟨s, rfl⟩, hmem.2⟩
  · intro h
    rw [trieSearch, h]
  · intro hinj c hc w q hw hpw
    have hop : (w, c, q) ∈ catalogOps cities := mem_catalogOps.mpr ⟨hc, hw⟩
    obtain ⟨y, hy⟩ := lastWrite_isSome_of_mem hop
    have h2 := mem_catalogOps.mp (lastWrite_mem hy)
    have hcy : c = y.1 := hinj c hc y.1 h2.1 w q y.2 hw h2.2
    refine ⟨y.2, ?_⟩
    rw [mem_trieSearch _ (wf_trieOf cities) p]
    obtain ⟨s, rfl⟩ := hpw
    refine ⟨s, ?_⟩
    rw [termAt_trieOf, hy, hcy]

/-- C3 witness: in the one-city catalog `[cityAB]` (whose indexed names
are pairwise owned by one place, so the no-collision hypothesis holds)
the prefix "a" of the indexed name "ab" yields an entry for `cityAB`. -/
theorem trieSearch_prefix_characterisation_witness :
    ∃ q2, (cityAB, q2) ∈ trieSearch (trieOf [cityAB]) ['a'] := by
  apply (trieSearch_prefix_characterisation [cityAB] ['a']).2.2
    ?_ cityAB (by simp) (jsLower cityAB.name) NAME_WEIGHT (by decide) ⟨['b'], rfl⟩
  intro c₁ hc₁ c₂ hc₂ w q₁ q₂ h₁ h₂
  have e1 : c₁ = cityAB := by simpa using hc₁
  have e2 : c₂ = cityAB := by simpa using hc₂
  rw [e1, e2]

/-- C4: in the coordinates-only branch (no query, both coordinates
present) every returned suggestion derives from a catalog place whose
code distance to the caller is at most `MAX_DISTANCE_KM` and carries the
pure proximity score of that place (the orchestrator combines proximity
with itself, `p·(1−w)+p·w = p`); the output is sorted descending by that
score; any place farther than `MAX_DISTANCE_KM` — in particular one at
`MAX_DISTANCE_KM + 1` — contributes no entry bearing its coordinates; and
every catalog place is considered: whenever at most `MAX_SUGGESTIONS`
places are within range, each in-range place appears in the output. -/
theorem coordsOnly_proximity_filter_and_rank (env : Env) (la lo : ℚ) :
    (∀ s ∈ getSuggestions env none (some la) (some lo),
      ∃ c ∈ env.cities,
        s = ⟨formatCityName c, c.latitude, c.longitude,
              (calculateProximityScore env c.latitude c.longitude la lo).2⟩ ∧
        env.dist c.latitude c.longitude la lo ≤ MAX_DISTANCE_KM) ∧
    List.Pairwise (fun a b => b.score ≤ a.score)
      (getSuggestions env none (some la) (some lo)) ∧
    (∀ c ∈ env.cities, MAX_DISTANCE_KM < env.dist c.latitude c.longitude la lo →
      ∀ s ∈ getSuggestions env none (some la) (some lo),
        ¬ (s.latitude = c.latitude ∧ s.longitude = c.longitude)) ∧
    ((env.cities.filter
        (fun c => env.dist c.latitude c.longitude la lo ≤ MAX_DISTANCE_KM)).length ≤
          MAX_SUGGESTIONS →
      ∀ c ∈ env.cities, env.dist c.latitude c.longitude la lo ≤ MAX_DISTANCE_KM →
        (⟨formatCityName c, c.latitude, c.longitude,
          (calculateProximityScore env c.latitude c.longitude la lo).2⟩ : Suggestion) ∈
            getSuggestions env none (some la) (some lo)) := by
  have hperm : List.Perm (getSuggestions env none (some la) (some lo))
      (handleLocationOnly env la lo) := by
    show List.Perm (rankAndLimitSuggestions _) _
    apply rankAndLimit_perm
    show ((getNearbyCities env la lo).map
      (fun m => createSuggestion env m.1 m.2.1 (some la) (some lo))).length ≤ MAX_SUGGESTIONS
    rw [List.length_map]
    exact List.length_take_le _ _
  have hsound : ∀ s ∈ getSuggestions env none (some la) (some lo),
      ∃ c ∈ env.cities,
        s = ⟨formatCityName c, c.latitude, c.longitude,
              (calculateProximityScore env c.latitude c.longitude la lo).2⟩ ∧
        env.dist c.latitude c.longitude la lo ≤ MAX_DISTANCE_KM := by
    intro s hs
    have hs2 := hperm.mem_iff.mp hs
    rw [handleLocationOnly] at hs2
    obtain ⟨m, hm, rfl⟩ := List.mem_map.mp hs2
    obtain ⟨c, hc, rfl, hdist⟩ := mem_getNearbyCities hm
    exact ⟨c, hc, createSuggestion_coords env c la lo, hdist⟩
  refine ⟨hsound, ?_, ?_, ?_⟩
  · show List.Pairwise _ ((List.insertionSort _ _).take MAX_SUGGESTIONS)
    apply List.Pairwise.sublist (List.take_sublist _ _)
    exact @List.sorted_insertionSort Suggestion (fun a b => b.score ≤ a.score) _
      ⟨fun a b => le_total b.score a.score⟩
      ⟨fun a b c h1 h2 => le_trans h2 h1⟩ _
  · intro c hc hfar s hs ⟨hla, hlo⟩
    obtain ⟨c', _, rfl, hdist⟩ := hsound s hs
    simp only at hla hlo
    rw [hla, hlo] at hdist
    exact absurd hdist (not_le.mpr hfar)
  · intro hlen c hc hnear
    apply hperm.mem_iff.mpr
    show _ ∈ (getNearbyCities env la lo).map
      (fun m => createSuggestion env m.1 m.2.1 (some la) (some lo))
    rw [← createSuggestion_coords env c la lo]
    apply List.mem_map.mpr
    refine ⟨(c, (calculateProximityScore env c.latitude c.longitude la lo).2,
      (calculateProximityScore env c.latitude c.longitude la lo).1), ?_, rfl⟩
    show _ ∈ (((env.cities.map fun city =>
        let p := calculateProximityScore env city.latitude city.longitude la lo
        (city, p.2, p.1)).filter (fun x => x.2.2 ≤ MAX_DISTANCE_KM)).insertionSort
        (fun a b => b.2.1 ≤ a.2.1)).take MAX_SUGGESTIONS
    have hlen2 : ((env.cities.map fun city =>
        let p := calculateProximityScore env city.latitude city.longitude la lo
        (city, p.2, p.1)).filter (fun x => x.2.2 ≤ MAX_DISTANCE_KM)).length ≤
          MAX_SUGGESTIONS := by
      have heq : ((env.cities.map fun city =>
          let p := calculateProximityScore env city.latitude city.longitude la lo
          (city, p.2, p.1)).filter (fun x => x.2.2 ≤ MAX_DISTANCE_KM)).length =
            (env.cities.filter
              (fun c => env.dist c.latitude c.longitude la lo ≤ MAX_DISTANCE_KM)).length := by
        rw [List.filter_map, List.length_map]
        rfl
      rw [heq]
      exact hlen
    rw [List.take_of_length_le (by rw [List.length_insertionSort]; exact hlen2),
      List.mem_insertionSort, List.mem_filter]
    constructor
    · exact List.mem_map.mpr ⟨c, hc, rfl⟩
    · simpa using hnear

/-- C4 witness: in `envGeo` (distance function `distLat`, `cityNear` at
distance 0 and `cityFar` at distance 2000 > `MAX_DISTANCE_KM`) the
coordinates-only request at (0, 0) contains `cityNear`'s
proximity-scored suggestion and no entry bearing `cityFar`'s
coordinates. -/
theorem coordsOnly_proximity_filter_and_rank_witness :
    ¬ ((⟨formatCityName cityFar, cityFar.latitude, cityFar.longitude, 0⟩ : Suggestion) ∈
        getSuggestions envGeo none (some 0) (some 0)) ∧
    (⟨formatCityName cityNear, cityNear.latitude, cityNear.longitude,
        (calculateProximityScore envGeo cityNear.latitude cityNear.longitude 0 0).2⟩ :
      Suggestion) ∈ getSuggestions envGeo none (some 0) (some 0) := by
  obtain ⟨h1, h2, h3, h4⟩ := coordsOnly_proximity_filter_and_rank envGeo 0 0
  constructor
  · intro hmem
    exact h3 cityFar (by simp [envGeo])
      (by norm_num [envGeo, distLat, cityFar, MAX_DISTANCE_KM]) _ hmem ⟨rfl, rfl⟩
  · exact h4 (le_trans (List.length_filter_le _ _) (by norm_num [envGeo, MAX_SUGGESTIONS]))
      cityNear (by simp [envGeo]) (by norm_num [envGeo, distLat, cityNear, MAX_DISTANCE_KM])

/-- C5: every suggestion `getSuggestions` returns is built from an
actual match `(c, t)` of the request — a prefix hit or a fuzzy match of
the query (the pair is in the trie search result or in `findMatches`),
or, when no query drove the branch, a catalog city `c` whose proximity
score is `t` — it displays that city's name and coordinates, and its
final score is `t × (1 − w) + secondaryScore × w` where
`w = PROXIMITY_WEIGHT (2/5 = 0.4)` and the secondary score is the
proximity score of `c` whenever the caller supplied both coordinates,
and `w = POPULATION_WEIGHT (3/20 = 0.15)` with the population-based
secondary score of `c` otherwise. -/
theorem score_combination_formula (env : Env) (q : Option (List Char))
    (lat lon : Option ℚ) :
    ∀ s ∈ getSuggestions env q lat lon,
      ∃ (c : City) (t : ℚ),
        ((∃ s', q = some s' ∧
            ((c, t) ∈ trieSearch (trieOf env.cities) s' ∨
              (c, t) ∈ findMatches env s')) ∨
          (∃ la lo, lat = some la ∧ lon = some lo ∧ c ∈ env.cities ∧
            t = (calculateProximityScore env c.latitude c.longitude la lo).2)) ∧
        s.name = formatCityName c ∧
        s.latitude = c.latitude ∧ s.longitude = c.longitude ∧
        (∀ la lo, lat = some la → lon = some lo →
          s.score = t * (1 - PROXIMITY_WEIGHT) +
            (calculateProximityScore env c.latitude c.longitude la lo).2 *
              PROXIMITY_WEIGHT) ∧
        ((lat = none ∨ lon = none) →
          s.score = t * (1 - POPULATION_WEIGHT) +
            calculatePopulationScore env c * POPULATION_WEIGHT) := by
  intro s hs
  rcases lat with _ | la <;> rcases lon with _ | lo
  case some.some =>
    have hbr : s ∈ (match q with
        | some s' => if s' ≠ [] then handleQueryWithLocation env s' la lo
                     else handleLocationOnly env la lo
        | none => handleLocationOnly env la lo) := mem_of_mem_rankAndLimit hs
    have hcs : ∃ (c : City) (t : ℚ),
        ((∃ s', q = some s' ∧
            ((c, t) ∈ trieSearch (trieOf env.cities) s' ∨
              (c, t) ∈ findMatches env s')) ∨
          (c ∈ env.cities ∧
            t = (calculateProximityScore env c.latitude c.longitude la lo).2)) ∧
        s = createSuggestion env c t (some la) (some lo) := by
      rcases q with _ | s'
      · obtain ⟨m, hm, rfl⟩ := List.mem_map.mp hbr
        obtain ⟨c, hc, rfl, _⟩ := mem_getNearbyCities hm
        exact ⟨c, _, Or.inr ⟨hc, rfl⟩, rfl⟩
      · replace hbr : s ∈ (if s' ≠ [] then handleQueryWithLocation env s' la lo
            else handleLocationOnly env la lo) := hbr
        by_cases hq : s' ≠ []
        · rw [if_pos hq, handleQueryWithLocation] at hbr
          by_cases htm : (trieSearch (trieOf env.cities) s').length > 0
          · rw [if_pos htm] at hbr
            obtain ⟨m, hm, rfl⟩ := List.mem_map.mp hbr
            exact ⟨m.1, m.2, Or.inl ⟨s', rfl, Or.inl (by simpa using hm)⟩, rfl⟩
          · rw [if_neg htm] at hbr
            obtain ⟨m, hm, rfl⟩ := List.mem_map.mp hbr
            exact ⟨m.1, m.2, Or.inl ⟨s', rfl, Or.inr (by simpa using hm)⟩, rfl⟩
        · rw [if_neg hq] at hbr
          obtain ⟨m, hm, rfl⟩ := List.mem_map.mp hbr
          obtain ⟨c, hc, rfl, _⟩ := mem_getNearbyCities hm
          exact ⟨c, _, Or.inr ⟨hc, rfl⟩, rfl⟩
    obtain ⟨c, t, hprov, rfl⟩ := hcs
    refine ⟨c, t, ?_, rfl, rfl, rfl, ?_, ?_⟩
    · rcases hprov with h | ⟨hc, ht⟩
      · exact Or.inl h
      · exact Or.inr ⟨la, lo, rfl, rfl, hc, ht⟩
    · intro la' lo' h1 h2
      cases h1; cases h2; rfl
    · rintro (h | h) <;> cases h
  all_goals {
    have hbr : s ∈ (match q with
        | some s' => if s' ≠ [] then handleQueryOnly env s' else []
        | none => ([] : List Suggestion)) := mem_of_mem_rankAndLimit hs
    have hcs : ∃ (c : City) (t : ℚ),
        (∃ s', q = some s' ∧
          ((c, t) ∈ trieSearch (trieOf env.cities) s' ∨
            (c, t) ∈ findMatches env s')) ∧
        s = createSuggestion env c t none none := by
      rcases q with _ | s'
      · cases hbr
      · replace hbr : s ∈ (if s' ≠ [] then handleQueryOnly env s' else []) := hbr
        by_cases hq : s' ≠ []
        · rw [if_pos hq, handleQueryOnly] at hbr
          by_cases h10 : ((trieSearch (trieOf env.cities) s').map
              (fun m => createSuggestion env m.1 m.2 none none)).length < MAX_SUGGESTIONS
          · rw [if_pos h10] at hbr
            rcases List.mem_append.mp hbr with hbr' | hbr'
            · obtain ⟨m, hm, rfl⟩ := List.mem_map.mp hbr'
              exact ⟨m.1, m.2, ⟨s', rfl, Or.inl (by simpa using hm)⟩, rfl⟩
            · obtain ⟨m, hm, rfl⟩ := List.mem_map.mp hbr'
              have hm2 := (List.mem_filter.mp hm).1
              exact ⟨m.1, m.2, ⟨s', rfl, Or.inr (by simpa using hm2)⟩, rfl⟩
          · rw [if_neg h10] at hbr
            obtain ⟨m, hm, rfl⟩ := List.mem_map.mp hbr
            exact ⟨m.1, m.2, ⟨s', rfl, Or.inl (by simpa using hm)⟩, rfl⟩
        · rw [if_neg hq] at hbr
          cases hbr
    obtain ⟨c, t, hprov, rfl⟩ := hcs
    refine ⟨c, t, Or.inl hprov, rfl, rfl, rfl, ?_, ?_⟩
    · intro la' lo' h1 h2
      cases h2 <;> cases h1
    · intro h; rfl
  }

/-- C5 witness: the single suggestion of the coordinates-only request in
`envOne` derives from the catalog city `cityNear` with its proximity
score as text score, displays that city's name, and is scored by the
proximity combination formula. -/
theorem score_combination_formula_witness :
    ∃ (c : City) (t : ℚ), c ∈ envOne.cities ∧
      t = (calculateProximityScore envOne c.latitude c.longitude 0 0).2 ∧
      (createSuggestion envOne cityNear
          (calculateProximityScore envOne cityNear.latitude cityNear.longitude 0 0).2
          (some 0) (some 0)).name = formatCityName c ∧
      (createSuggestion envOne cityNear
          (calculateProximityScore envOne cityNear.latitude cityNear.longitude 0 0).2
          (some 0) (some 0)).score =
        t * (1 - PROXIMITY_WEIGHT) +
          (calculateProximityScore envOne c.latitude c.longitude 0 0).2 *
            PROXIMITY_WEIGHT := by
  obtain ⟨c, t, hprov, hname, hlat, hlon, h1, h2⟩ :=
    score_combination_formula envOne none (some 0) (some 0)
      (createSuggestion envOne cityNear
        (calculateProximityScore envOne cityNear.latitude cityNear.longitude 0 0).2
        (some 0) (some 0))
      (by rw [show getSuggestions envOne none (some 0) (some 0) =
            [createSuggestion envOne cityNear
              (calculateProximityScore envOne cityNear.latitude cityNear.longitude 0 0).2
              (some 0) (some 0)] from rfl]
          exact List.mem_singleton_self _)
  rcases hprov with ⟨s', hq, _⟩ | ⟨la, lo, hla, hlo, hc, ht⟩
  · cases hq
  · cases hla; cases hlo
    exact ⟨c, t, hc, ht, hname, h1 0 0 rfl rfl⟩

/-- C6: the query-only branch returns exactly the ranked-and-capped list
consisting of the prefix hits — each scored with the field weight as text
score and the population-based secondary score at
`POPULATION_WEIGHT` — supplemented (appended to, not replacing) by the
fuzzy matches if and only if the prefix hits number fewer than
`MAX_SUGGESTIONS`, the fuzzy matches keeping only places whose id is not
among the prefix hits and scored with the similarity as text score. -/
theorem queryOnly_prefix_then_fuzzy_supplement (env : Env) (s : List Char)
    (hs : s ≠ []) :
    getSuggestions env (some s) none none =
      rankAndLimitSuggestions
        ((trieSearch (trieOf env.cities) s).map
            (fun m => ⟨formatCityName m.1, m.1.latitude, m.1.longitude,
              m.2 * (1 - POPULATION_WEIGHT) +
                calculatePopulationScore env m.1 * POPULATION_WEIGHT⟩) ++
          (if (trieSearch (trieOf env.cities) s).length < MAX_SUGGESTIONS then
            ((findMatches env s).filter
                (fun m => ¬ m.1.id ∈ (trieSearch (trieOf env.cities) s).map
                  (fun h => h.1.id))).map
              (fun m => ⟨formatCityName m.1, m.1.latitude, m.1.longitude,
                m.2 * (1 - POPULATION_WEIGHT) +
                  calculatePopulationScore env m.1 * POPULATION_WEIGHT⟩)
          else [])) := by
  show rankAndLimitSuggestions (if s ≠ [] then handleQueryOnly env s else []) = _
  rw [if_pos hs]
  congr 1
  rw [handleQueryOnly]
  simp only [List.length_map]
  by_cases h10 : (trieSearch (trieOf env.cities) s).length < MAX_SUGGESTIONS
  · rw [if_pos h10, if_pos h10]; rfl
  · rw [if_neg h10, if_neg h10, List.append_nil]; rfl

/-- C6 witness: the branch description instantiated in the one-city
environment `envQ` at the query "a". -/
theorem queryOnly_prefix_then_fuzzy_supplement_witness :
    getSuggestions envQ (some ['a']) none none =
      rankAndLimitSuggestions
        ((trieSearch (trieOf envQ.cities) ['a']).map
            (fun m => ⟨formatCityName m.1, m.1.latitude, m.1.longitude,
              m.2 * (1 - POPULATION_WEIGHT) +
                calculatePopulationScore envQ m.1 * POPULATION_WEIGHT⟩) ++
          (if (trieSearch (trieOf envQ.cities) ['a']).length < MAX_SUGGESTIONS then
            ((findMatches envQ ['a']).filter
                (fun m => ¬ m.1.id ∈ (trieSearch (trieOf envQ.cities) ['a']).map
                  (fun h => h.1.id))).map
              (fun m => ⟨formatCityName m.1, m.1.latitude, m.1.longitude,
                m.2 * (1 - POPULATION_WEIGHT) +
                  calculatePopulationScore envQ m.1 * POPULATION_WEIGHT⟩)
          else [])) :=
  queryOnly_prefix_then_fuzzy_supplement envQ ['a'] (by decide)

/-- C7 counterexample: the unit-interval claim fails on the program for
the catalog `envNaN`, whose maximum population is exactly 1.  The query
"o" returns a suggestion whose score the source computes as
`NAME_WEIGHT·(1−w) + (log10(population)/divisor)·w` where both the
numerator `Math.log10(1)` and the divisor `Math.ceil(Math.log10(1))` are
0 (`populationScoreIsNaN` holds): in IEEE arithmetic that division is
`0 / 0 = NaN`, so the program's returned score is NaN, outside [0, 1];
only the rational model's `0/0 = 0` stand-in keeps the value below. -/
theorem score_escapes_unit_interval_on_unit_max_population :
    populationScoreIsNaN envNaN cityOne ∧
    getSuggestions envNaN (some ['o']) none none =
      [⟨['o'], 0, 0,
        NAME_WEIGHT * (1 - POPULATION_WEIGHT) +
          envNaN.log10 (cityOne.population : ℚ) / popDivisor envNaN *
            POPULATION_WEIGHT⟩] := by
  constructor
  · refine ⟨by norm_num [cityOne], ?_, ?_⟩
    · show logLin ((cityOne.population : ℕ) : ℚ) = 0
      norm_num [logLin, cityOne]
    · show ((Rat.ceil (logLin ((getMaxPopulation [cityOne] : ℕ) : ℚ)) : ℤ) : ℚ) = 0
      have h1 : getMaxPopulation [cityOne] = 1 := by decide
      rw [h1, ratCeil_eq]
      norm_num [logLin]
  · rfl

/-- C7 (amended): assuming the abstracted haversine distance is
nonnegative, the external fuzzy index reports similarities in [0, 1],
`Math.log10` is monotone and nonnegative on inputs at least 1, and no
catalog city hits the undefined population division (no
`populationScoreIsNaN`, i.e. the catalog's maximum population is not
exactly 1 — the counterexample shows that catalog yields an IEEE NaN
score), every suggestion returned by `getSuggestions` — for every
catalog, query and coordinate input — has its final score in the closed
interval [0, 1]. -/
theorem suggestion_score_in_unit_interval (env : Env)
    (hd : ∀ a b c d, 0 ≤ env.dist a b c d)
    (hf : ∀ (p' : List Char), ∀ y ∈ env.fuzzyGet p', 0 ≤ y.1 ∧ y.1 ≤ 1)
    (hmono : ∀ a b : ℚ, 1 ≤ a → a ≤ b → env.log10 a ≤ env.log10 b)
    (hpos : ∀ a : ℚ, 1 ≤ a → 0 ≤ env.log10 a)
    (hnan : ∀ c ∈ env.cities, ¬ populationScoreIsNaN env c)
    (q : Option (List Char)) (lat lon : Option ℚ) :
    ∀ s ∈ getSuggestions env q lat lon, 0 ≤ s.score ∧ s.score ≤ 1 := by
  intro s hs
  rcases lat with _ | la <;> rcases lon with _ | lo
  case some.some =>
    have hbr : s ∈ (match q with
        | some s' => if s' ≠ [] then handleQueryWithLocation env s' la lo
                     else handleLocationOnly env la lo
        | none => handleLocationOnly env la lo) := mem_of_mem_rankAndLimit hs
    have hcs : ∃ c ∈ env.cities, ∃ t, 0 ≤ t ∧ t ≤ 1 ∧
        s = createSuggestion env c t (some la) (some lo) := by
      rcases q with _ | s'
      · obtain ⟨m, hm, rfl⟩ := List.mem_map.mp hbr
        obtain ⟨c, hc, rfl, _⟩ := mem_getNearbyCities hm
        obtain ⟨h0, h1⟩ := prox_bounds env hd c.latitude c.longitude la lo
        exact ⟨c, hc, _, h0, h1, rfl⟩
      · replace hbr : s ∈ (if s' ≠ [] then handleQueryWithLocation env s' la lo
            else handleLocationOnly env la lo) := hbr
        by_cases hq : s' ≠ []
        · rw [if_pos hq, handleQueryWithLocation] at hbr
          by_cases htm : (trieSearch (trieOf env.cities) s').length > 0
          · rw [if_pos htm] at hbr
            obtain ⟨m, hm, rfl⟩ := List.mem_map.mp hbr
            obtain ⟨hc, h0, h1⟩ := trieSearch_textScore hm
            exact ⟨m.1, hc, m.2, h0, h1, rfl⟩
          · rw [if_neg htm] at hbr
            obtain ⟨m, hm, rfl⟩ := List.mem_map.mp hbr
            obtain ⟨hc, h0, h1⟩ := findMatches_bounds hf hm
            exact ⟨m.1, hc, m.2, h0, h1, rfl⟩
        · rw [if_neg hq] at hbr
          obtain ⟨m, hm, rfl⟩ := List.mem_map.mp hbr
          obtain ⟨c, hc, rfl, _⟩ := mem_getNearbyCities hm
          obtain ⟨h0, h1⟩ := prox_bounds env hd c.latitude c.longitude la lo
          exact ⟨c, hc, _, h0, h1, rfl⟩
    obtain ⟨c, hc, t, h0, h1, rfl⟩ := hcs
    exact createSuggestion_score_bounds env hd hmono hpos c hc (hnan c hc) t h0 h1 _ _
  all_goals {
    have hbr : s ∈ (match q with
        | some s' => if s' ≠ [] then handleQueryOnly env s' else []
        | none => ([] : List Suggestion)) := mem_of_mem_rankAndLimit hs
    have hcs : ∃ c ∈ env.cities, ∃ t, 0 ≤ t ∧ t ≤ 1 ∧
        s = createSuggestion env c t none none := by
      rcases q with _ | s'
      · cases hbr
      · replace hbr : s ∈ (if s' ≠ [] then handleQueryOnly env s' else []) := hbr
        by_cases hq : s' ≠ []
        · rw [if_pos hq, handleQueryOnly] at hbr
          by_cases h10 : ((trieSearch (trieOf env.cities) s').map
              (fun m => createSuggestion env m.1 m.2 none none)).length < MAX_SUGGESTIONS
          · rw [if_pos h10] at hbr
            rcases List.mem_append.mp hbr with hbr' | hbr'
            · obtain ⟨m, hm, rfl⟩ := List.mem_map.mp hbr'
              obtain ⟨hc, h0, h1⟩ := trieSearch_textScore hm
              exact ⟨m.1, hc, m.2, h0, h1, rfl⟩
            · obtain ⟨m, hm, rfl⟩ := List.mem_map.mp hbr'
              have hm2 := (List.mem_filter.mp hm).1
              obtain ⟨hc, h0, h1⟩ := findMatches_bounds hf hm2
              exact ⟨m.1, hc, m.2, h0, h1, rfl⟩
          · rw [if_neg h10] at hbr
            obtain ⟨m, hm, rfl⟩ := List.mem_map.mp hbr
            obtain ⟨hc, h0, h1⟩ := trieSearch_textScore hm
            exact ⟨m.1, hc, m.2, h0, h1, rfl⟩
        · rw [if_neg hq] at hbr
          cases hbr
    obtain ⟨c, hc, t, h0, h1, rfl⟩ := hcs
    exact createSuggestion_score_bounds env hd hmono hpos c hc (hnan c hc) t h0 h1 _ _
  }

/-- C7 witness: the score of the single suggestion in `envQ` for the
query "a" lies in [0, 1]; the distance, fuzzy, logarithm and no-NaN
hypotheses hold for the concrete fixtures `dist0`, `fz0`, `log0` and
the zero-population catalog `[cityP]`. -/
theorem suggestion_score_in_unit_interval_witness :
    0 ≤ (createSuggestion envQ cityP NAME_WEIGHT none none).score ∧
      (createSuggestion envQ cityP NAME_WEIGHT none none).score ≤ 1 :=
  suggestion_score_in_unit_interval envQ
    (fun a b c d => le_refl 0)
    (fun p y hy => absurd hy (List.not_mem_nil y))
    (fun a b h1 h2 => le_refl 0)
    (fun a h => le_refl 0)
    (fun c hc h => by
      rw [show c = cityP from by simpa [envQ] using hc] at h
      exact h.1 rfl)
    (some ['a']) none none
    (createSuggestion envQ cityP NAME_WEIGHT none none)
    (by rw [show getSuggestions envQ (some ['a']) none none =
          [createSuggestion envQ cityP NAME_WEIGHT none none] from rfl]
        exact List.mem_singleton_self _)

/-- C8: `search` with the empty prefix returns the whole index: an entry
is in the result exactly when some word stores it in the terminal map,
the result holds one entry per terminal node of the whole trie, and every
indexed name's node contributes its stored place to the result. -/
theorem trieSearch_empty_whole_index (cities : List City) :
    (∀ x, x ∈ trieSearch (trieOf cities) [] ↔
        ∃ w, termAt (trieOf cities) w = some x) ∧
    (trieSearch (trieOf cities) []).length = countTerminals (trieOf cities) ∧
    (∀ c ∈ cities, ∀ w q, (w, q) ∈ cityWords c →
      ∃ x, termAt (trieOf cities) w = some x ∧ x ∈ trieSearch (trieOf cities) []) := by
  have hmem : ∀ x, x ∈ trieSearch (trieOf cities) [] ↔
      ∃ w, termAt (trieOf cities) w = some x := by
    intro x
    rw [mem_trieSearch _ (wf_trieOf cities) []]
    constructor
    · rintro ⟨s, hs⟩; exact ⟨s, hs⟩
    · rintro ⟨w, hw⟩; exact ⟨w, hw⟩
  refine ⟨hmem, ?_, ?_⟩
  · show (collectWords (trieOf cities)).length = _
    exact length_collectWords _ (wf_trieOf cities)
  · intro c hc w q hw
    have hop : (w, c, q) ∈ catalogOps cities := mem_catalogOps.mpr ⟨hc, hw⟩
    obtain ⟨y, hy⟩ := lastWrite_isSome_of_mem hop
    refine ⟨y, by rw [termAt_trieOf]; exact hy, ?_⟩
    exact (hmem y).mpr ⟨w, by rw [termAt_trieOf]; exact hy⟩

/-- C8 witness: the empty-prefix search over the one-city catalog
`[cityAB]` has exactly one entry per terminal node of the index. -/
theorem trieSearch_empty_whole_index_witness :
    (trieSearch (trieOf [cityAB]) []).length = countTerminals (trieOf [cityAB]) :=
  (trieSearch_empty_whole_index [cityAB]).2.1

/-- C9 counterexample: in the two-city catalog `envNaN2` (populations 1
and 0) the maximum population is exactly 1, so the population score the
source computes for `cityOne` is
`Math.log10(1) / Math.ceil(Math.log10(1)) = 0 / 0 = NaN`
(`populationScoreIsNaN` holds); in IEEE arithmetic every comparison with
NaN is false, so the monotonicity comparison
`populationScore(cityZero) <= populationScore(cityOne)` fails on the
program even though `cityZero`'s population is strictly smaller and both
cities sit in the same catalog. -/
theorem populationScore_monotone_hits_NaN :
    populationScoreIsNaN envNaN2 cityOne ∧
    cityZero.population < cityOne.population ∧
    cityOne ∈ envNaN2.cities ∧ cityZero ∈ envNaN2.cities := by
  refine ⟨⟨by norm_num [cityOne], ?_, ?_⟩,
    by norm_num [cityZero, cityOne], by simp [envNaN2], by simp [envNaN2]⟩
  · show logLin ((cityOne.population : ℕ) : ℚ) = 0
    norm_num [logLin, cityOne]
  · show ((Rat.ceil (logLin ((getMaxPopulation [cityOne, cityZero] : ℕ) : ℚ)) : ℤ) : ℚ) = 0
    have h1 : getMaxPopulation [cityOne, cityZero] = 1 := by decide
    rw [h1, ratCeil_eq]
    norm_num [logLin]

/-- C9 (amended): the population score is monotone within one catalog:
for cities X and Y of the same catalog (hence scored against the same
maximum population), if X has strictly larger population then its
population score is at least Y's — Y's score being clamped to 0 when its
population is 0 — assuming `Math.log10` is monotone and nonnegative on
inputs at least 1, and provided X does not hit the undefined 0/0
population division (no `populationScoreIsNaN`, i.e. the catalog's
maximum population is not exactly 1 — the counterexample shows that
degenerate catalog yields an IEEE NaN score for which the comparison
fails). -/
theorem populationScore_monotone (env : Env)
    (hmono : ∀ a b : ℚ, 1 ≤ a → a ≤ b → env.log10 a ≤ env.log10 b)
    (hpos : ∀ a : ℚ, 1 ≤ a → 0 ≤ env.log10 a)
    (X Y : City) (hX : X ∈ env.cities) (hY : Y ∈ env.cities)
    (hpop : Y.population < X.population)
    (hnanX : ¬ populationScoreIsNaN env X) :
    calculatePopulationScore env Y ≤ calculatePopulationScore env X := by
  have hX1 : 1 ≤ X.population := Nat.one_le_iff_ne_zero.mpr (by omega)
  have hX1Q : (1 : ℚ) ≤ X.population := by exact_mod_cast hX1
  have hmaxN : X.population ≤ getMaxPopulation env.cities := le_getMaxPopulation hX
  have hmax1Q : (1 : ℚ) ≤ (getMaxPopulation env.cities : ℚ) := by
    have h := le_trans hX1 hmaxN
    exact_mod_cast h
  have hLX0 : 0 ≤ env.log10 X.population := hpos _ hX1Q
  have hLmax : env.log10 X.population ≤ env.log10 (getMaxPopulation env.cities) :=
    hmono _ _ hX1Q (by exact_mod_cast hmaxN)
  have hceil : env.log10 (getMaxPopulation env.cities) ≤ popDivisor env := by
    rw [popDivisor, ratCeil_eq]
    exact Int.le_ceil _
  have hD0 : (0 : ℚ) ≤ popDivisor env :=
    le_trans (hpos _ hmax1Q) hceil
  have hDne : popDivisor env ≠ 0 := by
    intro hD
    exact hnanX ⟨by omega,
      le_antisymm (le_trans hLmax (hD ▸ hceil)) hLX0, hD⟩
  have hDpos : (0 : ℚ) < popDivisor env := lt_of_le_of_ne hD0 (Ne.symm hDne)
  rw [calculatePopulationScore, calculatePopulationScore]
  by_cases hY0 : Y.population = 0
  · rw [if_neg (by simpa using hY0), if_pos (by omega)]
    exact div_nonneg hLX0 hD0
  · rw [if_pos (by simpa using hY0), if_pos (by omega)]
    have hY1Q : (1 : ℚ) ≤ Y.population := by
      exact_mod_cast Nat.one_le_iff_ne_zero.mpr hY0
    have hXYQ : (Y.population : ℚ) ≤ X.population := by exact_mod_cast hpop.le
    exact div_le_div_of_nonneg_right (hmono _ _ hY1Q hXYQ) hDpos.le

/-- C9 witness: in `envPop` (populations 100 and 10, logarithm fixture
`logLin`) the more populous `cityX` scores at least `cityY`; the no-NaN
hypothesis holds since `logLin 100 = 99` is nonzero. -/
theorem populationScore_monotone_witness :
    calculatePopulationScore envPop cityY ≤ calculatePopulationScore envPop cityX := by
  apply populationScore_monotone envPop
  · intro a b h1 h2
    show a - 1 ≤ b - 1
    linarith
  · intro a h
    show 0 ≤ a - 1
    linarith
  · simp [envPop]
  · simp [envPop]
  · norm_num [cityX, cityY]
  · intro h
    have h2 := h.2.1
    norm_num [envPop, logLin, cityX] at h2

/-- C10: at the public interface an empty-string query is treated exactly
as an absent query: with no coordinates the result is the empty list (not
the whole index that the prefix structure would return for the empty
prefix), and with a coordinate pair the result is identical to the
coordinates-only request. -/
theorem empty_query_treated_as_absent (env : Env) :
    getSuggestions env (some []) none none = [] ∧
    ∀ (la lo : ℚ), getSuggestions env (some []) (some la) (some lo) =
      getSuggestions env none (some la) (some lo) := by
  constructor
  · rfl
  · intro la lo; rfl

/-- C10 witness: the two equalities at the concrete environment
`envDup` and the caller coordinate (1, 2). -/
theorem empty_query_treated_as_absent_witness :
    getSuggestions envDup (some []) none none = [] ∧
    getSuggestions envDup (some []) (some 1) (some 2) =
      getSuggestions envDup none (some 1) (some 2) :=
  ⟨(empty_query_treated_as_absent envDup).1,
    (empty_query_treated_as_absent envDup).2 1 2⟩

/-- C2 witness (for the amended statement): the empty catalog yields an
empty result for a coordinates-only request as well. -/
theorem getSuggestions_empty_catalog_always_empty_witness :
    getSuggestions ⟨[], dist0, log0, fz0⟩ none (some 1) (some 2) = [] :=
  getSuggestions_empty_catalog_always_empty dist0 log0 fz0 none (some 1) (some 2)
